import Mathlib

/-!
Shallow embedding of the app-store-reviews-viewer frontend.

The repository has three source files:
* `service.ts` — data model, `apiRequest`, `getApps`, `getReviews`;
* `App.tsx` (plain variant) — dropdown selection, URL sync, polling;
* `App.tsx` (day-filter variant) — adds a custom App ID form and a
  `reviewFilterDays` input.

JavaScript numbers that only ever hold nonnegative integers are modelled as
`Nat`; `parseInt` results, which may be negative, as `Option Int` (with
`none` for `NaN`).  Strings are Lean `String`s.  Asynchronous fetches are
modelled by passing the settled outcome of the promise to the handler.
-/

namespace AppViewer

/-! ## Data model (service.ts) -/

structure App where
  id : Nat
deriving DecidableEq

structure Review where
  id : String
  appId : Nat
  title : String
  content : String
  author : String
  score : Nat
  updated : String
deriving DecidableEq

structure GetAppsResponse where
  items : List App
deriving DecidableEq

structure GetReviewsResponse where
  items : List Review
deriving DecidableEq

structure ValidationError where
  loc : List (String ⊕ Nat)
  msg : String
  type : String

structure HTTPValidationError where
  detail : List ValidationError

/-- A value thrown by JavaScript code: either an `Error` object (identified
by its `message`) or any non-`Error` value. -/
inductive JsThrown where
  | error (message : String)
  | nonError

/-! ## Decimal digits

JavaScript renders a number into a template literal by its decimal digits,
and `parseInt(s, 10)` reads a maximal leading run of decimal digits. -/

/-- The character for the decimal digit `d` (`d < 10`). -/
def digitChar (d : Nat) : Char := Char.ofNat (48 + d)

/-- Decimal digit rendering, structurally recursive on a fuel argument so
that it reduces in the kernel; `fuel` bounds the recursion depth and is
never exhausted when `n ≤ fuel`. -/
def decimalDigitsAux : Nat → Nat → List Char
  | 0, n => [digitChar n]
  | fuel + 1, n =>
    if n < 10 then [digitChar n]
    else decimalDigitsAux fuel (n / 10) ++ [digitChar (n % 10)]

/-- Decimal digit list of `n`, most significant first: the characters of
the JavaScript rendering of the number `n`. -/
def decimalDigits (n : Nat) : List Char := decimalDigitsAux n n

/-- The JavaScript string rendering of the nonnegative integer `n`. -/
def decimalString (n : Nat) : String := String.mk (decimalDigits n)

/-- Maximal leading run of decimal digits (the `\d+` greedy match). -/
def takeDigits : List Char → List Char
  | [] => []
  | c :: cs => if c.isDigit then c :: takeDigits cs else []

/-- Numeric value of a digit list, most significant first (`parseInt` on a
pure digit string). -/
def digitsToNat (ds : List Char) : Nat :=
  ds.foldl (fun a c => 10 * a + (c.toNat - 48)) 0

theorem digitChar_isDigit {d : Nat} (h : d < 10) : (digitChar d).isDigit = true := by
  interval_cases d <;> decide

theorem digitChar_toNat {d : Nat} (h : d < 10) : (digitChar d).toNat = 48 + d := by
  interval_cases d <;> decide

theorem digitsToNat_append_singleton (ds : List Char) (c : Char) :
    digitsToNat (ds ++ [c]) = 10 * digitsToNat ds + (c.toNat - 48) := by
  simp [digitsToNat, List.foldl_append]

theorem single_digitChar_spec {n : Nat} (h : n < 10) :
    ([digitChar n] : List Char) ≠ [] ∧
      (∀ c ∈ ([digitChar n] : List Char), c.isDigit = true) ∧
      digitsToNat [digitChar n] = n := by
  refine ⟨by simp, ?_, ?_⟩
  · intro c hc
    simp only [List.mem_singleton] at hc
    subst hc
    exact digitChar_isDigit h
  · simp [digitsToNat, digitChar_toNat h]

theorem decimalDigitsAux_spec (fuel : Nat) : ∀ n, n ≤ fuel ∨ n < 10 →
    decimalDigitsAux fuel n ≠ [] ∧
      (∀ c ∈ decimalDigitsAux fuel n, c.isDigit = true) ∧
      digitsToNat (decimalDigitsAux fuel n) = n := by
  induction fuel with
  | zero =>
    intro n hn
    have h : n < 10 := by omega
    exact single_digitChar_spec h
  | succ fuel ih =>
    intro n hn
    by_cases h : n < 10
    · rw [decimalDigitsAux, if_pos h]
      exact single_digitChar_spec h
    · rw [decimalDigitsAux, if_neg h]
      have hdiv : n / 10 ≤ fuel := by
        have hlt : n / 10 < n := Nat.div_lt_self (by omega) (by omega)
        omega
      obtain ⟨h1, h2, h3⟩ := ih (n / 10) (Or.inl hdiv)
      have hm : n % 10 < 10 := Nat.mod_lt _ (by omega)
      refine ⟨by simp [h1], ?_, ?_⟩
      · intro c hc
        rcases List.mem_append.mp hc with hc | hc
        · exact h2 c hc
        · simp only [List.mem_singleton] at hc
          subst hc
          exact digitChar_isDigit hm
      · rw [digitsToNat_append_singleton, h3, digitChar_toNat hm]
        omega

theorem decimalDigits_spec (n : Nat) :
    decimalDigits n ≠ [] ∧ (∀ c ∈ decimalDigits n, c.isDigit = true) ∧
      digitsToNat (decimalDigits n) = n :=
  decimalDigitsAux_spec n n (Or.inl (Nat.le_refl n))

theorem takeDigits_all_digits (ds : List Char) (h : ∀ c ∈ ds, c.isDigit = true) :
    takeDigits ds = ds := by
  induction ds with
  | nil => rfl
  | cons c cs ih =>
    simp [takeDigits, h c (List.mem_cons_self c cs),
      ih fun x hx => h x (List.mem_cons_of_mem c hx)]

/-! ## URL helpers (both App.tsx variants, identical code)

```
const getAppIdFromUrl = () => {
  const path = window.location.pathname;
  const match = path.match(/\/app\/(\d+)/);
  return match ? parseInt(match[1], 10) : null;
};
const updateUrl = (appId: number | null) => {
  const newPath = appId ? `/app/${appId}` : "/";
  window.history.pushState({}, "", newPath);
};
```
-/

/-- Attempt of the regex `/\/app\/(\d+)/` at one position: the literal
`/app/` followed by at least one digit; the capture is the greedy maximal
digit run. -/
def matchAppIdAt : List Char → Option (List Char)
  | '/' :: 'a' :: 'p' :: 'p' :: '/' :: rest =>
      match takeDigits rest with
      | [] => none
      | d :: ds => some (d :: ds)
  | _ => none

/-- Leftmost match of the regex `/\/app\/(\d+)/` over the whole path, as
`String.prototype.match` computes it. -/
def findAppId : List Char → Option (List Char)
  | [] => none
  | c :: cs =>
    match matchAppIdAt (c :: cs) with
    | some ds => some ds
    | none => findAppId cs

/-- Helper `getAppIdFromUrl`, as a function of the current pathname. -/
def getAppIdFromUrl (path : String) : Option Nat :=
  (findAppId path.data).map digitsToNat

/-- Helper `updateUrl`: the path pushed onto the history.  A JavaScript `0` is
falsy, so `updateUrl(0)` pushes `/`. -/
def updateUrl : Option Nat → String
  | none => "/"
  | some appId => if appId = 0 then "/" else "/app/" ++ decimalString appId

theorem matchAppIdAt_app_head (ds : List Char) (hne : ds ≠ [])
    (hdig : ∀ c ∈ ds, c.isDigit = true) :
    matchAppIdAt ('/' :: 'a' :: 'p' :: 'p' :: '/' :: ds) = some ds := by
  rw [matchAppIdAt]
  rw [takeDigits_all_digits ds hdig]
  cases ds with
  | nil => exact absurd rfl hne
  | cons d tl => rfl

theorem findAppId_cons_of_match (c : Char) (cs ds : List Char)
    (h : matchAppIdAt (c :: cs) = some ds) : findAppId (c :: cs) = some ds := by
  rw [findAppId, h]

theorem data_append_app (s : String) :
    ("/app/" ++ s).data = '/' :: 'a' :: 'p' :: 'p' :: '/' :: s.data := by
  cases s
  rfl

theorem getAppIdFromUrl_app_decimal (n : Nat) :
    getAppIdFromUrl ("/app/" ++ decimalString n) = some n := by
  obtain ⟨hne, hdig, hval⟩ := decimalDigits_spec n
  have hdata : ("/app/" ++ decimalString n).data =
      '/' :: 'a' :: 'p' :: 'p' :: '/' :: decimalDigits n := data_append_app _
  rw [getAppIdFromUrl, hdata,
    findAppId_cons_of_match _ _ _ (matchAppIdAt_app_head _ hne hdig)]
  rw [Option.map_some', hval]

theorem findAppId_eq_none_iff (cs : List Char) :
    findAppId cs = none ↔ ∀ i, matchAppIdAt (cs.drop i) = none := by
  induction cs with
  | nil =>
    simp only [findAppId, List.drop_nil, true_iff]
    intro i
    rfl
  | cons c cs ih =>
    constructor
    · intro h i
      rw [findAppId] at h
      cases hm : matchAppIdAt (c :: cs) with
      | some ds => rw [hm] at h; exact absurd h (by simp)
      | none =>
        rw [hm] at h
        cases i with
        | zero => exact hm
        | succ j => exact (ih.mp h) j
    · intro h
      have h0 : matchAppIdAt (c :: cs) = none := by simpa using h 0
      rw [findAppId, h0]
      exact ih.mpr fun j => by simpa using h (j + 1)

theorem findAppId_first (cs : List Char) (i : Nat) (ds : List Char)
    (h1 : matchAppIdAt (cs.drop i) = some ds)
    (h2 : ∀ j < i, matchAppIdAt (cs.drop j) = none) :
    findAppId cs = some ds := by
  induction cs generalizing i with
  | nil =>
    rw [List.drop_nil] at h1
    exact absurd h1 (by simp [matchAppIdAt])
  | cons c cs ih =>
    cases i with
    | zero =>
      rw [List.drop_zero] at h1
      exact findAppId_cons_of_match _ _ _ h1
    | succ j =>
      have h0 : matchAppIdAt (c :: cs) = none := h2 0 (Nat.succ_pos j)
      rw [findAppId, h0]
      exact ih j h1 fun k hk => h2 (k + 1) (Nat.succ_lt_succ hk)

/-! ## Service layer (service.ts)

```
async function apiRequest<T>(endpoint: string): Promise<T> {
  const url = `${API_BASE_URL}${endpoint}`;
  try {
    const response = await fetch(url);
    if (!response.ok) {
      if (response.status === 422) {
        const errorData: HTTPValidationError = await response.json();
        throw new Error(
          `Validation Error: ${errorData.detail.map((e) => e.msg).join(", ")}`);
      }
      throw new Error(`HTTP error! status: ${response.status}`);
    }
    return await response.json();
  } catch (error) {
    if (error instanceof Error) { throw error; }
    throw new Error("An unexpected error occurred");
  }
}
```

The browser side of `fetch` plus `response.json()` is modelled by an
environment mapping the requested URL to the settled outcome: either an
HTTP response (whose body is carried both as a decoded `T` and as a decoded
`HTTPValidationError`, for whichever branch reads it) or a thrown value. -/

/-- An HTTP response as `apiRequest` observes it. -/
structure ApiHttpResponse (T : Type) where
  ok : Bool
  status : Nat
  bodyAsT : T
  bodyAsValidationError : HTTPValidationError

/-- Outcome of `fetch` + `json()` at a given URL. -/
inductive FetchResult (T : Type) where
  | response (r : ApiHttpResponse T)
  | thrown (v : JsThrown)

/-- An HTTP request issued by the frontend.  `fetch(url)` with no options
issues a GET. -/
structure HttpRequest where
  method : String
  url : String
deriving DecidableEq

/-- The URL `apiRequest` builds: `API_BASE_URL` concatenated with the
endpoint. -/
def apiRequestUrl (baseUrl endpoint : String) : String := baseUrl ++ endpoint

/-- The single request `apiRequest` issues. -/
def apiRequestIssued (baseUrl endpoint : String) : HttpRequest :=
  { method := "GET", url := apiRequestUrl baseUrl endpoint }

/-- Joined `msg` fields: `errorData.detail.map((e) => e.msg).join(", ")`. -/
def joinedMsgs (e : HTTPValidationError) : String :=
  String.intercalate ", " (e.detail.map (fun v => v.msg))

/-- Function `apiRequest`: result of the call, as a message-carrying `Except`.  All
errors it rejects with are `Error` objects, so a message suffices; a
non-`Error` thrown inside the `try` is replaced by the fixed message. -/
def apiRequest {T : Type} (baseUrl endpoint : String)
    (env : String → FetchResult T) : Except String T :=
  match env (apiRequestUrl baseUrl endpoint) with
  | .thrown (.error m) => .error m
  | .thrown .nonError => .error "An unexpected error occurred"
  | .response r =>
    if r.ok then .ok r.bodyAsT
    else if r.status = 422 then
      .error ("Validation Error: " ++ joinedMsgs r.bodyAsValidationError)
    else
      .error ("HTTP error! status: " ++ decimalString r.status)

/-- Function `getApps()` = `apiRequest<GetAppsResponse>("/api/apps")`. -/
def getApps (baseUrl : String) (env : String → FetchResult GetAppsResponse) :
    Except String GetAppsResponse :=
  apiRequest baseUrl "/api/apps" env

/-- The request `getApps` issues. -/
def getAppsRequest (baseUrl : String) : HttpRequest :=
  apiRequestIssued baseUrl "/api/apps"

/-- Function `getReviews(appId)` = `apiRequest<GetReviewsResponse>(`/api/reviews/${appId}`)`. -/
def getReviews (baseUrl : String) (appId : Nat)
    (env : String → FetchResult GetReviewsResponse) :
    Except String GetReviewsResponse :=
  apiRequest baseUrl ("/api/reviews/" ++ decimalString appId) env

/-- The request `getReviews appId` issues. -/
def getReviewsRequest (baseUrl : String) (appId : Nat) : HttpRequest :=
  apiRequestIssued baseUrl ("/api/reviews/" ++ decimalString appId)

/-- The day-filter variant calls `getReviews(appId, updatedMin)` with a
second argument, but the declared parameter list of `getReviews` has only
`appId`: JavaScript drops the extra argument.  This definition is that call
site's semantics. -/
def getReviewsCallTwoArgs (baseUrl : String) (appId : Nat)
    (updatedMinArg : String)
    (env : String → FetchResult GetReviewsResponse) :
    Except String GetReviewsResponse :=
  getReviews baseUrl appId env

/-- Request issued by the two-argument call site. -/
def getReviewsCallTwoArgsRequest (baseUrl : String) (appId : Nat)
    (updatedMinArg : String) : HttpRequest :=
  getReviewsRequest baseUrl appId

/-! ## JavaScript parseInt with radix 10

`parseInt(s, 10)` skips leading whitespace, reads an optional sign and then
a maximal run of decimal digits; it is `NaN` when no digit follows.
Modelled as `Option Int` with `none` for `NaN`. -/

/-- Whitespace characters `parseInt` skips (ASCII whitespace; the component
feeds it the value of a numeric input field, which contains none). -/
def isJsSpace (c : Char) : Bool :=
  c = ' ' || c = '\t' || c = '\n' || c = '\r' ||
    c = Char.ofNat 11 || c = Char.ofNat 12

/-- Leading digit run as a number, `none` when there is no leading digit. -/
def parseLeadingDigits (cs : List Char) : Option Nat :=
  match takeDigits cs with
  | [] => none
  | d :: ds => some (digitsToNat (d :: ds))

/-- The JavaScript `parseInt(s, 10)`. -/
def parseIntJs (s : String) : Option Int :=
  match s.data.dropWhile isJsSpace with
  | '-' :: rest => (parseLeadingDigits rest).map (fun n => -(n : Int))
  | '+' :: rest => (parseLeadingDigits rest).map (fun n => (n : Int))
  | rest => (parseLeadingDigits rest).map (fun n => (n : Int))

/-! ## Plain variant component (src/App.tsx)

State fields mirror the `useState` hooks, plus the current pathname.
Each handler is a state transition taking the settled outcome of any
`await` it performs. -/

structure PState where
  apps : List App
  selectedAppId : Option Nat
  reviews : List Review
  loadingApps : Bool
  loadingReviews : Bool
  error : Option String
  url : String
deriving DecidableEq

/-- Component state on first render, at pathname `path`. -/
def pInit (path : String) : PState :=
  { apps := [], selectedAppId := none, reviews := [], loadingApps := false,
    loadingReviews := false, error := none, url := path }

/-- Mount effect `fetchApps`: set loading, clear error, await `getApps`;
on success store the items and auto-select a truthy URL app id; on failure
surface the message; finally clear loading. -/
def pFetchApps (result : Except JsThrown GetAppsResponse) (s : PState) : PState :=
  let s1 := { s with loadingApps := true, error := none }
  match result with
  | .ok resp =>
    let s2 := { s1 with apps := resp.items }
    let s3 :=
      match getAppIdFromUrl s2.url with
      | some id => if id = 0 then s2 else { s2 with selectedAppId := some id }
      | none => s2
    { s3 with loadingApps := false }
  | .error (.error m) => { s1 with error := some m, loadingApps := false }
  | .error .nonError =>
    { s1 with error := some "Failed to fetch apps", loadingApps := false }

/-- Handler `handlePopState` (plain variant): read the id from the new pathname and
set it unconditionally. -/
def pHandlePopState (newPath : String) (s : PState) : PState :=
  { s with url := newPath, selectedAppId := getAppIdFromUrl newPath }

/-- Handler `fetchReviews` (plain variant): set loading, clear error, await
`getReviews(appId)`; store items or surface the message; clear loading. -/
def pFetchReviews (appId : Nat) (result : Except JsThrown GetReviewsResponse)
    (s : PState) : PState :=
  let s1 := { s with loadingReviews := true, error := none }
  match result with
  | .ok resp => { s1 with reviews := resp.items, loadingReviews := false }
  | .error (.error m) => { s1 with error := some m, loadingReviews := false }
  | .error .nonError =>
    { s1 with error := some "Failed to fetch reviews", loadingReviews := false }

/-- Requests one invocation of the plain `fetchReviews` issues: exactly the
single `getReviews(appId)` call, whatever the outcome. -/
def pFetchReviewsRequests (baseUrl : String) (appId : Nat) : List HttpRequest :=
  [getReviewsRequest baseUrl appId]

/-- Requests one invocation of `fetchApps` issues. -/
def pFetchAppsRequests (baseUrl : String) : List HttpRequest :=
  [getAppsRequest baseUrl]

/-- Handler `handleAppSelect` (plain variant): select and push the URL. -/
def pHandleAppSelect (appId : Nat) (s : PState) : PState :=
  { s with selectedAppId := some appId, url := updateUrl (some appId) }

/-! ## Day-filter variant component (the second App.tsx) -/

structure FState where
  apps : List App
  selectedAppId : Option Nat
  customAppId : String
  reviews : List Review
  loadingApps : Bool
  loadingReviews : Bool
  error : Option String
  reviewFilterDays : Nat
  url : String
deriving DecidableEq

/-- Component state of the filter variant on first render. -/
def fInit (path : String) : FState :=
  { apps := [], selectedAppId := none, customAppId := "", reviews := [],
    loadingApps := false, loadingReviews := false, error := none,
    reviewFilterDays := 10, url := path }

/-- Mount effect of the filter variant: on success, a truthy URL id is
selected when it occurs in the fetched list and otherwise only populates
the custom input field. -/
def fFetchApps (result : Except JsThrown GetAppsResponse) (s : FState) : FState :=
  let s1 := { s with loadingApps := true }
  match result with
  | .ok resp =>
    let s2 := { s1 with error := none, apps := resp.items }
    let s3 :=
      match getAppIdFromUrl s2.url with
      | some id =>
        if id = 0 then s2
        else if resp.items.any (fun a => a.id == id) then
          { s2 with selectedAppId := some id }
        else
          { s2 with customAppId := decimalString id }
      | none => s2
    { s3 with loadingApps := false }
  | .error (.error m) => { s1 with error := some m, loadingApps := false }
  | .error .nonError =>
    { s1 with error := some "Failed to fetch apps", loadingApps := false }

/-- Handler `handlePopState` of the filter variant: a truthy URL id is selected
when present in the apps list, otherwise moved into the custom field;
otherwise both are cleared. -/
def fHandlePopState (newPath : String) (s : FState) : FState :=
  let s1 := { s with url := newPath }
  match getAppIdFromUrl newPath with
  | some id =>
    if id = 0 then { s1 with selectedAppId := none, customAppId := "" }
    else if s1.apps.any (fun a => a.id == id) then
      { s1 with selectedAppId := some id, customAppId := "" }
    else
      { s1 with customAppId := decimalString id, selectedAppId := none }
  | none => { s1 with selectedAppId := none, customAppId := "" }

/-- Handler `fetchReviews` of the filter variant, given the settled outcome of its
`getReviews(appId, updatedMin)` call: note `setError(null)` runs after the
`await` here, so it is skipped on failure. -/
def fFetchReviewsApply (appId : Nat) (result : Except JsThrown GetReviewsResponse)
    (s : FState) : FState :=
  let s1 := { s with loadingReviews := true }
  match result with
  | .ok resp =>
    { s1 with error := none, reviews := resp.items, loadingReviews := false }
  | .error (.error m) => { s1 with error := some m, loadingReviews := false }
  | .error .nonError =>
    { s1 with error := some "Failed to fetch reviews", loadingReviews := false }

/-- A rejection of the message-level service result, as the component's
`catch` receives it: always an `Error` carrying the message. -/
def toComponentResult {T : Type} : Except String T → Except JsThrown T
  | .ok v => .ok v
  | .error m => .error (.error m)

/-- The `updatedMin` computed by the filter variant: the current time minus
`reviewFilterDays` days (`date.setDate(date.getDate() - reviewFilterDays)`),
rendered by `toISOString`.  Modelled as the shifted epoch-millisecond value;
its rendering is irrelevant because the argument is dropped. -/
def updatedMinMillis (nowMs days : Nat) : Nat := nowMs - days * 86400000

/-- One full run of the filter variant's `fetchReviews`: compute
`updatedMin` from `reviewFilterDays`, call `getReviews(appId, updatedMin)`
(the extra argument is dropped), and apply the state update. -/
def fFetchReviewsRun (baseUrl : String)
    (env : String → FetchResult GetReviewsResponse) (nowMs appId : Nat)
    (s : FState) : FState :=
  fFetchReviewsApply appId
    (toComponentResult
      (getReviewsCallTwoArgs baseUrl appId
        (decimalString (updatedMinMillis nowMs s.reviewFilterDays)) env)) s

/-- Requests one invocation of the filter variant's `fetchReviews` issues. -/
def fFetchReviewsRequests (baseUrl : String) (nowMs appId days : Nat) :
    List HttpRequest :=
  [getReviewsCallTwoArgsRequest baseUrl appId
    (decimalString (updatedMinMillis nowMs days))]

/-- Handler `handleAppSelect` of the filter variant: select, clear the custom
field, push the URL. -/
def fHandleAppSelect (appId : Nat) (s : FState) : FState :=
  { s with
      selectedAppId := some appId, customAppId := "",
      url := updateUrl (some appId) }

/-- Handler `handleCustomAppIdSubmit`: parse the custom field; a positive parse
selects the id, clears the field and pushes the URL, anything else only
sets the error message. -/
def fHandleCustomAppIdSubmit (s : FState) : FState :=
  match parseIntJs s.customAppId with
  | some k =>
    if 0 < k then
      { s with
          selectedAppId := some k.toNat, customAppId := "",
          url := updateUrl (some k.toNat) }
    else { s with error := some "Please enter a valid app ID (positive number)" }
  | none => { s with error := some "Please enter a valid app ID (positive number)" }

/-! ## Polling effect (both variants)

```
useEffect(() => {
  if (selectedAppId === null) return;
  fetchReviews(selectedAppId);
  const interval = setInterval(() => { fetchReviews(selectedAppId); },
    REFRESH_INTERVAL);
  return () => clearInterval(interval);
}, [selectedAppId, fetchReviews]);
```

React runs the previous effect's cleanup before the next effect body, and
the cleanup once more on unmount.  A commit of the effect is therefore
`cleanup; body`.  Timers are identified by the id `setInterval` returns. -/

def REFRESH_INTERVAL : Nat := 2000

/-- An active interval timer: its id, the captured `selectedAppId` the
callback fetches, and its period in milliseconds. -/
structure IntervalTimer where
  timerId : Nat
  fetchAppId : Nat
  periodMs : Nat
deriving DecidableEq

/-- Timer bookkeeping for the polling effect: the active intervals, the
interval id the pending cleanup closure would clear (if the previous body
installed one), the next fresh id, and the log of immediate
`fetchReviews` calls the effect bodies performed. -/
structure PollState where
  timers : List IntervalTimer
  cleanup : Option Nat
  nextId : Nat
  immediateFetches : List Nat
deriving DecidableEq

def pollInit : PollState :=
  { timers := [], cleanup := none, nextId := 0, immediateFetches := [] }

/-- The browser `clearInterval(i)`. -/
def clearIntervalTimers (i : Nat) (ts : List IntervalTimer) : List IntervalTimer :=
  ts.filter (fun t => t.timerId != i)

/-- Run the cleanup returned by the previous effect body. -/
def runPollCleanup (s : PollState) : PollState :=
  match s.cleanup with
  | none => s
  | some i => { s with timers := clearIntervalTimers i s.timers, cleanup := none }

/-- Run the effect body for the committed `selectedAppId`. -/
def runPollBody (sel : Option Nat) (s : PollState) : PollState :=
  match sel with
  | none => { s with cleanup := none }
  | some id =>
    { timers := s.timers ++ [⟨s.nextId, id, REFRESH_INTERVAL⟩],
      cleanup := some s.nextId,
      nextId := s.nextId + 1,
      immediateFetches := s.immediateFetches ++ [id] }

/-- One commit of the effect: previous cleanup, then the new body. -/
def pollCommit (sel : Option Nat) (s : PollState) : PollState :=
  runPollBody sel (runPollCleanup s)

/-- Timer state after a sequence of commits of the effect, starting from
the first mount. -/
def pollTrace (sels : List (Option Nat)) : PollState :=
  sels.foldl (fun s sel => pollCommit sel s) pollInit

/-- Shape invariant of the polling state: the pending cleanup clears
exactly the one active interval, and without a pending cleanup no interval
is active; any active interval polls at `REFRESH_INTERVAL`. -/
def PollInv (s : PollState) : Prop :=
  match s.cleanup with
  | none => s.timers = []
  | some i => ∃ id, s.timers = [⟨i, id, REFRESH_INTERVAL⟩]

theorem pollInv_init : PollInv pollInit := by
  simp [PollInv, pollInit]

theorem runPollCleanup_of_inv {s : PollState} (h : PollInv s) :
    (runPollCleanup s).timers = [] ∧ (runPollCleanup s).cleanup = none ∧
      (runPollCleanup s).nextId = s.nextId ∧
      (runPollCleanup s).immediateFetches = s.immediateFetches := by
  unfold PollInv at h
  unfold runPollCleanup
  cases hc : s.cleanup with
  | none => rw [hc] at h; simp [h, hc]
  | some i =>
    rw [hc] at h
    obtain ⟨id, hts⟩ := h
    simp [hts, clearIntervalTimers]

theorem pollInv_commit {s : PollState} (sel : Option Nat) (h : PollInv s) :
    PollInv (pollCommit sel s) := by
  obtain ⟨h1, h2, h3, h4⟩ := runPollCleanup_of_inv h
  unfold pollCommit runPollBody
  cases sel with
  | none => simp [PollInv, h1, h2]
  | some id => simp [PollInv, h1]

theorem pollInv_trace (sels : List (Option Nat)) : PollInv (pollTrace sels) := by
  suffices h : ∀ s, PollInv s →
      PollInv (sels.foldl (fun a sel => pollCommit sel a) s) by
    exact h pollInit pollInv_init
  induction sels with
  | nil => intro s hs; exact hs
  | cons x xs ih =>
    intro s hs
    exact ih _ (pollInv_commit x hs)

theorem pollTrace_append_single (sels : List (Option Nat)) (sel : Option Nat) :
    pollTrace (sels ++ [sel]) = pollCommit sel (pollTrace sels) := by
  unfold pollTrace
  rw [List.foldl_append]
  rfl

theorem pollCommit_some {s : PollState} (id : Nat) (h : PollInv s) :
    (pollCommit (some id) s).timers =
        [⟨(runPollCleanup s).nextId, id, REFRESH_INTERVAL⟩] ∧
      (pollCommit (some id) s).immediateFetches = s.immediateFetches ++ [id] := by
  obtain ⟨h1, h2, h3, h4⟩ := runPollCleanup_of_inv h
  unfold pollCommit runPollBody
  simp [h1, h4]

theorem pollCommit_none {s : PollState} (h : PollInv s) :
    (pollCommit none s).timers = [] ∧
      (pollCommit none s).immediateFetches = s.immediateFetches := by
  obtain ⟨h1, h2, h3, h4⟩ := runPollCleanup_of_inv h
  unfold pollCommit runPollBody
  simp [h1, h4]

/-! ## Claim theorems -/

/-- C2: URL round-trip.  For every positive `appId`, `updateUrl (some appId)`
pushes `/app/` followed by the decimal digits of `appId`, and
`getAppIdFromUrl` applied to that path returns exactly `appId`;
`updateUrl none` pushes `/`, from which `getAppIdFromUrl` returns `none`.
So `getAppIdFromUrl` is a left inverse of `updateUrl` on positive ids and
on `none`. -/
theorem urlRoundTrip (appId : Nat) (h : 0 < appId) :
    updateUrl (some appId) = "/app/" ++ decimalString appId ∧
    getAppIdFromUrl (updateUrl (some appId)) = some appId ∧
    updateUrl none = "/" ∧
    getAppIdFromUrl (updateUrl none) = none := by
  have hne : appId ≠ 0 := by omega
  have h1 : updateUrl (some appId) = "/app/" ++ decimalString appId := by
    simp [updateUrl, hne]
  refine ⟨h1, ?_, rfl, by rfl⟩
  rw [h1]
  exact getAppIdFromUrl_app_decimal appId

/-- Witness for C2 at `appId = 12`. -/
theorem urlRoundTrip_witness :
    (0 : Nat) < 12 ∧ getAppIdFromUrl (updateUrl (some 12)) = some 12 :=
  ⟨by decide, (urlRoundTrip 12 (by decide)).2.1⟩

/-- C10: URL parsing is total and substring-based.  `getAppIdFromUrl` is a
total Lean function (it cannot throw); it returns `none` exactly when the
regex `/\/app\/(\d+)/` matches at no position of the pathname, and when the
leftmost matching position captures the digit run `ds` it returns the
base-10 value of `ds` — so a match anywhere in the path counts, e.g.
`/x/app/12/y` yields `12` (see the witness). -/
theorem getAppIdFromUrl_substring_spec (path : String) :
    (getAppIdFromUrl path = none ↔
      ∀ i, matchAppIdAt (path.data.drop i) = none) ∧
    (∀ i ds, matchAppIdAt (path.data.drop i) = some ds →
      (∀ j, j < i → matchAppIdAt (path.data.drop j) = none) →
      getAppIdFromUrl path = some (digitsToNat ds)) := by
  constructor
  · rw [getAppIdFromUrl, Option.map_eq_none']
    exact findAppId_eq_none_iff path.data
  · intro i ds h1 h2
    rw [getAppIdFromUrl, findAppId_first path.data i ds h1 h2, Option.map_some']

/-- Witness for C10: on `/x/app/12/y` the regex matches at position 2 with
capture `12`, so the parser yields `12`. -/
theorem getAppIdFromUrl_substring_spec_witness :
    getAppIdFromUrl "/x/app/12/y" = some 12 := by
  have h := (getAppIdFromUrl_substring_spec "/x/app/12/y").2 2 ['1', '2']
    (by rfl) (by decide)
  have hv : digitsToNat ['1', '2'] = 12 := by decide
  rw [hv] at h
  exact h

/-- C6: apiRequest error discrimination.  For every HTTP response:
`ok` returns the JSON-decoded body; non-ok status 422 throws an `Error`
whose message is `Validation Error: ` followed by the comma-and-space
joined `msg` fields of the response's `detail` array; any other non-ok
status `N` throws `HTTP error! status: N`; a non-`Error` thrown value is
replaced by an `Error` with message `An unexpected error occurred` (and an
`Error` thrown by the environment is rethrown as-is). -/
theorem apiRequest_error_discrimination {T : Type} (baseUrl endpoint : String)
    (env : String → FetchResult T) :
    (∀ r : ApiHttpResponse T, env (apiRequestUrl baseUrl endpoint) = .response r →
      ((r.ok = true → apiRequest baseUrl endpoint env = .ok r.bodyAsT) ∧
       (r.ok = false → r.status = 422 →
          apiRequest baseUrl endpoint env =
            .error ("Validation Error: " ++ joinedMsgs r.bodyAsValidationError)) ∧
       (r.ok = false → r.status ≠ 422 →
          apiRequest baseUrl endpoint env =
            .error ("HTTP error! status: " ++ decimalString r.status)))) ∧
    (∀ m, env (apiRequestUrl baseUrl endpoint) = .thrown (.error m) →
      apiRequest baseUrl endpoint env = .error m) ∧
    (env (apiRequestUrl baseUrl endpoint) = .thrown .nonError →
      apiRequest baseUrl endpoint env = .error "An unexpected error occurred") := by
  refine ⟨?_, ?_, ?_⟩
  · intro r hr
    refine ⟨?_, ?_, ?_⟩
    · intro hok
      rw [apiRequest, hr]
      simp [hok]
    · intro hok h422
      rw [apiRequest, hr]
      simp [hok, h422]
    · intro hok h422
      rw [apiRequest, hr]
      simp [hok, h422]
  · intro m hm
    rw [apiRequest, hm]
  · intro hm
    rw [apiRequest, hm]

/-- Environment used by the C6 witness: the backend answers every request
with a 422 validation failure carrying one detail entry. -/
def env422 : String → FetchResult GetAppsResponse :=
  fun _ => FetchResult.response
    { ok := false, status := 422,
      bodyAsT := { items := [] },
      bodyAsValidationError :=
        { detail := [{ loc := [], msg := "bad id", type := "int_parsing" }] } }

/-- Witness for C6: a 422 response with one detail message produces the
`Validation Error: ` message. -/
theorem apiRequest_error_discrimination_witness :
    apiRequest "http://api" "/api/apps" env422 =
      .error "Validation Error: bad id" := by
  have h := ((apiRequest_error_discrimination "http://api" "/api/apps"
    env422).1 _ rfl).2.1 rfl rfl
  exact h.trans (by rfl)

/-- C7: endpoint mapping.  `getApps` issues a GET to `API_BASE_URL ++
"/api/apps"` and returns the decoded `GetAppsResponse`; for every `appId`,
`getReviews appId` issues a GET to `API_BASE_URL ++ "/api/reviews/"`
followed by the decimal digits of `appId` and returns the decoded
`GetReviewsResponse`. -/
theorem endpoint_mapping (baseUrl : String) (appId : Nat)
    (envA : String → FetchResult GetAppsResponse)
    (envR : String → FetchResult GetReviewsResponse) :
    getAppsRequest baseUrl = { method := "GET", url := baseUrl ++ "/api/apps" } ∧
    getReviewsRequest baseUrl appId =
      { method := "GET",
        url := baseUrl ++ ("/api/reviews/" ++ decimalString appId) } ∧
    digitsToNat (decimalString appId).data = appId ∧
    (∀ c ∈ (decimalString appId).data, c.isDigit = true) ∧
    (∀ r, envA (baseUrl ++ "/api/apps") = .response r → r.ok = true →
      getApps baseUrl envA = .ok r.bodyAsT) ∧
    (∀ r, envR (baseUrl ++ ("/api/reviews/" ++ decimalString appId)) = .response r →
      r.ok = true → getReviews baseUrl appId envR = .ok r.bodyAsT) := by
  obtain ⟨hne, hdig, hval⟩ := decimalDigits_spec appId
  refine ⟨rfl, rfl, hval, hdig, ?_, ?_⟩
  · intro r hr hok
    rw [getApps, apiRequest]
    simp only [apiRequestUrl]
    rw [hr]
    simp [hok]
  · intro r hr hok
    rw [getReviews, apiRequest]
    simp only [apiRequestUrl]
    rw [hr]
    simp [hok]

/-- Environment used by the C7 witness: every request succeeds with an
empty reviews list. -/
def envReviewsOk : String → FetchResult GetReviewsResponse :=
  fun _ => FetchResult.response
    { ok := true, status := 200, bodyAsT := { items := [] },
      bodyAsValidationError := { detail := [] } }

/-- Witness for C7 at `appId = 7`. -/
theorem endpoint_mapping_witness :
    getReviewsRequest "http://api" 7 =
      { method := "GET", url := "http://api/api/reviews/7" } ∧
    getReviews "http://api" 7 envReviewsOk = .ok { items := [] } := by
  have h := endpoint_mapping "http://api" 7 (fun _ => FetchResult.thrown .nonError)
    envReviewsOk
  refine ⟨h.2.1.trans (by rfl), ?_⟩
  exact h.2.2.2.2.2 _ rfl rfl

/-- C8: review-filter noninterference.  The day-filter variant's
`fetchReviews` issues the same request as the plain variant for the same
selected `appId`, because `getReviews` accepts only the `appId` parameter
and the extra `updatedMin` argument is dropped; two runs of the filter
variant that differ only in `reviewFilterDays` (or in the current time)
issue identical requests, obtain identical results, and end with identical
review lists. -/
theorem reviewFilter_noninterference (baseUrl : String)
    (env : String → FetchResult GetReviewsResponse)
    (nowMs1 nowMs2 appId days1 days2 : Nat) (s : FState) :
    fFetchReviewsRequests baseUrl nowMs1 appId days1 =
      pFetchReviewsRequests baseUrl appId ∧
    fFetchReviewsRequests baseUrl nowMs1 appId days1 =
      fFetchReviewsRequests baseUrl nowMs2 appId days2 ∧
    (∀ updatedMinArg, getReviewsCallTwoArgs baseUrl appId updatedMinArg env =
      getReviews baseUrl appId env) ∧
    (fFetchReviewsRun baseUrl env nowMs1 appId
        { s with reviewFilterDays := days1 }).reviews =
      (fFetchReviewsRun baseUrl env nowMs2 appId
        { s with reviewFilterDays := days2 }).reviews := by
  refine ⟨rfl, rfl, fun _ => rfl, ?_⟩
  rw [fFetchReviewsRun, fFetchReviewsRun, getReviewsCallTwoArgs,
    getReviewsCallTwoArgs, fFetchReviewsApply.eq_def, fFetchReviewsApply.eq_def]
  cases toComponentResult (getReviews baseUrl appId env) with
  | ok resp => rfl
  | error e => cases e <;> rfl

/-- C5: failure handling is surfacing only.  For every rejection of
`getApps` or `getReviews`, the handler sets `error` to the thrown `Error`'s
message (or to the fallback `Failed to fetch apps` / `Failed to fetch
reviews` when the thrown value is not an `Error`), clears the corresponding
loading flag, and leaves `apps`, `reviews` and everything else unchanged;
the handler issues exactly one request, so no retry happens. -/
theorem failure_surfacing_only (s : PState) (fs : FState) (m : String)
    (baseUrl : String) (appId : Nat) :
    pFetchApps (.error (.error m)) s =
      { s with loadingApps := false, error := some m } ∧
    pFetchApps (.error .nonError) s =
      { s with loadingApps := false, error := some "Failed to fetch apps" } ∧
    pFetchReviews appId (.error (.error m)) s =
      { s with loadingReviews := false, error := some m } ∧
    pFetchReviews appId (.error .nonError) s =
      { s with loadingReviews := false, error := some "Failed to fetch reviews" } ∧
    fFetchApps (.error (.error m)) fs =
      { fs with loadingApps := false, error := some m } ∧
    fFetchApps (.error .nonError) fs =
      { fs with loadingApps := false, error := some "Failed to fetch apps" } ∧
    fFetchReviewsApply appId (.error (.error m)) fs =
      { fs with loadingReviews := false, error := some m } ∧
    fFetchReviewsApply appId (.error .nonError) fs =
      { fs with loadingReviews := false, error := some "Failed to fetch reviews" } ∧
    pFetchAppsRequests baseUrl = [getAppsRequest baseUrl] ∧
    pFetchReviewsRequests baseUrl appId = [getReviewsRequest baseUrl appId] :=
  ⟨rfl, rfl, rfl, rfl, rfl, rfl, rfl, rfl, rfl, rfl⟩

/-- C9: custom app id submission validity and atomicity.  An input whose
`parseInt` base 10 is `NaN` or not strictly positive sets the error to
`Please enter a valid app ID (positive number)` and leaves `selectedAppId`,
`customAppId` and the URL unchanged; an input parsing to a positive integer
selects that id, clears the input and pushes `/app/{id}`. -/
theorem customAppId_submit (s : FState) :
    (parseIntJs s.customAppId = none →
      fHandleCustomAppIdSubmit s =
        { s with error := some "Please enter a valid app ID (positive number)" }) ∧
    (∀ k : Int, parseIntJs s.customAppId = some k → k ≤ 0 →
      fHandleCustomAppIdSubmit s =
        { s with error := some "Please enter a valid app ID (positive number)" }) ∧
    (∀ k : Int, parseIntJs s.customAppId = some k → 0 < k →
      fHandleCustomAppIdSubmit s =
        { s with
            selectedAppId := some k.toNat, customAppId := "",
            url := "/app/" ++ decimalString k.toNat }) := by
  refine ⟨?_, ?_, ?_⟩
  · intro hp
    rw [fHandleCustomAppIdSubmit, hp]
  · intro k hp hk
    rw [fHandleCustomAppIdSubmit, hp]
    simp only [if_neg (by omega : ¬ 0 < k)]
  · intro k hp hk
    rw [fHandleCustomAppIdSubmit, hp]
    simp only [if_pos hk]
    have hne : k.toNat ≠ 0 := by omega
    rw [updateUrl, if_neg hne]

/-- Witness for C9: submitting `7` selects app `7` and pushes `/app/7`;
submitting `abc` only sets the error. -/
theorem customAppId_submit_witness :
    fHandleCustomAppIdSubmit { fInit "/" with customAppId := "7" } =
      { fInit "/" with
          selectedAppId := some 7, customAppId := "", url := "/app/7" } ∧
    fHandleCustomAppIdSubmit { fInit "/" with customAppId := "abc" } =
      { fInit "/" with
          customAppId := "abc",
          error := some "Please enter a valid app ID (positive number)" } := by
  constructor
  · have h := (customAppId_submit { fInit "/" with customAppId := "7" }).2.2
      7 (by rfl) (by decide)
    exact h.trans (by rfl)
  · exact (customAppId_submit { fInit "/" with customAppId := "abc" }).1 (by rfl)

/-- C3: single repeating timer.  After any sequence of commits of the
polling effect, at most one interval is active, every active interval has
period `REFRESH_INTERVAL`, the cleanup clears the interval (so unmount
leaves none), and a commit with `selectedAppId = null` leaves no interval
active. -/
theorem single_polling_interval (sels : List (Option Nat)) :
    (pollTrace sels).timers.length ≤ 1 ∧
    (∀ t ∈ (pollTrace sels).timers, t.periodMs = REFRESH_INTERVAL) ∧
    (runPollCleanup (pollTrace sels)).timers = [] ∧
    (pollTrace (sels ++ [none])).timers = [] := by
  have hinv := pollInv_trace sels
  have hclean := runPollCleanup_of_inv hinv
  refine ⟨?_, ?_, hclean.1, ?_⟩
  · unfold PollInv at hinv
    cases hc : (pollTrace sels).cleanup with
    | none => rw [hc] at hinv; simp [hinv]
    | some i =>
      rw [hc] at hinv
      obtain ⟨id, hts⟩ := hinv
      simp [hts]
  · intro t ht
    unfold PollInv at hinv
    cases hc : (pollTrace sels).cleanup with
    | none => rw [hc] at hinv; rw [hinv] at ht; exact absurd ht (by simp)
    | some i =>
      rw [hc] at hinv
      obtain ⟨id, hts⟩ := hinv
      rw [hts] at ht
      simp only [List.mem_singleton] at ht
      rw [ht]
  · rw [pollTrace_append_single]
    exact (pollCommit_none hinv).1

/-- Witness for C3: after the commits `select 3`, `deselect`, `select 4`
the single active interval is timer `1` polling app `4`, and its period is
`REFRESH_INTERVAL`. -/
theorem single_polling_interval_witness :
    ({ timerId := 1, fetchAppId := 4, periodMs := 2000 } : IntervalTimer).periodMs =
      REFRESH_INTERVAL :=
  (single_polling_interval [some 3, none, some 4]).2.1
    { timerId := 1, fetchAppId := 4, periodMs := 2000 } (by decide)

/-- C4: periodic polling of reviews.  `REFRESH_INTERVAL = 2000`; a commit
with a selected id immediately invokes `fetchReviews` with that id and
leaves exactly one interval active, fetching that id every
`REFRESH_INTERVAL` milliseconds until the next commit; a commit with no
selection triggers no fetch and leaves no interval. -/
theorem periodic_polling (sels : List (Option Nat)) (appId : Nat) :
    REFRESH_INTERVAL = 2000 ∧
    (pollTrace (sels ++ [some appId])).timers =
      [{ timerId := (pollTrace sels).nextId, fetchAppId := appId,
         periodMs := REFRESH_INTERVAL }] ∧
    (pollTrace (sels ++ [some appId])).immediateFetches =
      (pollTrace sels).immediateFetches ++ [appId] ∧
    (pollTrace (sels ++ [none])).immediateFetches =
      (pollTrace sels).immediateFetches ∧
    (pollTrace (sels ++ [none])).timers = [] := by
  have hinv := pollInv_trace sels
  have hclean := runPollCleanup_of_inv hinv
  have hsome := pollCommit_some (s := pollTrace sels) appId hinv
  have hnone := pollCommit_none (s := pollTrace sels) hinv
  refine ⟨rfl, ?_, ?_, ?_, ?_⟩
  · rw [pollTrace_append_single, hsome.1, hclean.2.2.1]
  · rw [pollTrace_append_single, hsome.2]
  · rw [pollTrace_append_single, hnone.2]
  · rw [pollTrace_append_single, hnone.1]

/-! ## C1: URL-state synchronization -/

/-- Plain-variant synchronization invariant: the selected app id equals
the id parsed from the current URL (and is `none` exactly when the path
has no `/app/{digits}` segment). -/
def PConsistent (s : PState) : Prop := s.selectedAppId = getAppIdFromUrl s.url

/-- Filter-variant synchronization invariant. -/
def FConsistent (s : FState) : Prop := s.selectedAppId = getAppIdFromUrl s.url

/-- C1 as stated is false.  In the day-filter variant, mounting at
`/app/5` when `getApps` succeeds with a list not containing app `5`
populates the custom input instead of selecting: `selectedAppId` stays
`null` although the URL parses to `5`. -/
theorem urlSync_counterexample :
    (fFetchApps (.ok { items := [] }) (fInit "/app/5")).selectedAppId = none ∧
    getAppIdFromUrl (fFetchApps (.ok { items := [] }) (fInit "/app/5")).url =
      some 5 ∧
    ¬ FConsistent (fFetchApps (.ok { items := [] }) (fInit "/app/5")) := by
  have h1 : (fFetchApps (.ok { items := [] }) (fInit "/app/5")).selectedAppId =
      none := rfl
  have h2 : getAppIdFromUrl
      (fFetchApps (.ok { items := [] }) (fInit "/app/5")).url = some 5 := rfl
  refine ⟨h1, h2, ?_⟩
  intro hcon
  rw [FConsistent, h1, h2] at hcon
  exact Option.noConfusion hcon

/-- C1 amended: after every state-changing event the invariant holds, with
the qualifications the code forces.  In the plain variant it holds after a
successful mount whose URL id is not the falsy `0`, after selecting a
positive id, and unconditionally after every popstate.  In the filter
variant it holds after a successful mount or a popstate whenever every id
the URL parses to is positive and occurs in the (fetched) apps list, after
selecting a positive id, and submitting the custom form preserves it. -/
theorem urlSync_amended :
    (∀ path resp, getAppIdFromUrl path ≠ some 0 →
      PConsistent (pFetchApps (.ok resp) (pInit path))) ∧
    (∀ s appId, 0 < appId → PConsistent (pHandleAppSelect appId s)) ∧
    (∀ s path, PConsistent (pHandlePopState path s)) ∧
    (∀ path resp,
      (∀ id, getAppIdFromUrl path = some id →
        0 < id ∧ resp.items.any (fun a => a.id == id) = true) →
      FConsistent (fFetchApps (.ok resp) (fInit path))) ∧
    (∀ s path,
      (∀ id, getAppIdFromUrl path = some id →
        0 < id ∧ s.apps.any (fun a => a.id == id) = true) →
      FConsistent (fHandlePopState path s)) ∧
    (∀ s appId, 0 < appId → FConsistent (fHandleAppSelect appId s)) ∧
    (∀ s, FConsistent s → FConsistent (fHandleCustomAppIdSubmit s)) := by
  refine ⟨?_, ?_, ?_, ?_, ?_, ?_, ?_⟩
  · intro path resp hne
    rw [PConsistent, pFetchApps]
    cases hp : getAppIdFromUrl path with
    | none => simp [pInit, hp]
    | some id =>
      have hid : id ≠ 0 := fun h => hne (h ▸ hp)
      simp [pInit, hp, hid]
  · intro s appId hpos
    rw [PConsistent, pHandleAppSelect]
    have hne : appId ≠ 0 := by omega
    simp only [updateUrl, if_neg hne]
    exact (getAppIdFromUrl_app_decimal appId).symm
  · intro s path
    rw [PConsistent, pHandlePopState]
  · intro path resp hmem
    rw [FConsistent, fFetchApps]
    cases hp : getAppIdFromUrl path with
    | none => simp [fInit, hp]
    | some id =>
      obtain ⟨hpos, hany⟩ := hmem id hp
      have hid : id ≠ 0 := by omega
      simp [fInit, hp, hid, hany]
  · intro s path hmem
    rw [FConsistent, fHandlePopState]
    cases hp : getAppIdFromUrl path with
    | none => simp [hp]
    | some id =>
      obtain ⟨hpos, hany⟩ := hmem id hp
      have hid : id ≠ 0 := by omega
      simp [hp, hid, hany]
  · intro s appId hpos
    rw [FConsistent, fHandleAppSelect]
    have hne : appId ≠ 0 := by omega
    simp only [updateUrl, if_neg hne]
    exact (getAppIdFromUrl_app_decimal appId).symm
  · intro s hcon
    rw [FConsistent, fHandleCustomAppIdSubmit]
    cases hp : parseIntJs s.customAppId with
    | none => exact hcon
    | some k =>
      by_cases hk : 0 < k
      · simp only [if_pos hk]
        have hne : k.toNat ≠ 0 := by omega
        simp only [updateUrl, if_neg hne]
        exact (getAppIdFromUrl_app_decimal k.toNat).symm
      · simp only [if_neg hk]
        exact hcon

/-- Witness for the amended C1: selecting app `3` from the dropdown at `/`
re-establishes the invariant, and mounting the filter variant at `/app/5`
with app `5` in the catalog selects it. -/
theorem urlSync_amended_witness :
    PConsistent (pHandleAppSelect 3 (pInit "/")) ∧
    FConsistent (fFetchApps (.ok { items := [{ id := 5 }] }) (fInit "/app/5")) := by
  constructor
  · exact urlSync_amended.2.1 (pInit "/") 3 (by decide)
  · refine urlSync_amended.2.2.2.1 "/app/5" { items := [{ id := 5 }] } ?_
    intro id hid
    have h5 : getAppIdFromUrl "/app/5" = some 5 := rfl
    rw [h5] at hid
    have : id = 5 := (Option.some_inj.mp hid).symm
    subst this
    exact ⟨by decide, by rfl⟩

end AppViewer
